import Mathlib

/-!
Verification of the core logic of locode (src/locode.py).

The Python module works on documents produced by yaml.safe_load: nested
mappings from string keys to values (scalars, sequences, mappings).  We embed
such values as the inductive type YNode.  Python dict objects are modelled as
association lists in insertion order (CPython dicts preserve insertion order);
the OrderedDict values produced by arrange_yml_nodes get their own constructor
omap, because the source distinguishes the two with a runtime type test
(line 118: if type(yml_node) != type(dict) then return the node unchanged).

Python exceptions (KeyError, AttributeError, TypeError) are modelled with
Except String.  Diagnostic output on stderr is modelled as a returned list of
Warning values.  File loading and yaml parsing are outside the embedded core:
parse_yml_file is embedded as a function of the already parsed source
document, exactly as of line 82 of the source.
-/

inductive YNode where
  | str (s : String)
  | int (n : Int)
  | bool (b : Bool)
  | null
  | seq (xs : List YNode)
  | map (xs : List (String × YNode))
  | omap (xs : List (String × YNode))
deriving Repr

/-- Keys of a mapping node, in order; list(d.keys()) in Python. -/
def nodeKeys : YNode → List String
  | .map xs => xs.map Prod.fst
  | .omap xs => xs.map Prod.fst
  | _ => []

/-- A parsed document: a top level mapping, as an insertion ordered
association list. -/
abbrev Doc := List (String × YNode)

/-- Python d[k] = v for a key k already present in d: the value is replaced in
place, the position of the key is unchanged. -/
def replaceVal (d : List (String × α)) (k : String) (v : α) : List (String × α) :=
  d.map (fun q => if q.1 == k then (q.1, v) else q)

/-- Python d[k] = v: replace in place when the key is present, append at the
end otherwise (CPython dicts append fresh keys in insertion order). -/
def updOne (d : List (String × α)) (k : String) (v : α) : List (String × α) :=
  if (d.lookup k).isSome then replaceVal d k v else d ++ [(k, v)]

/-- Python d.update(u): iterate the items of u in order, assigning each into
d; colliding keys keep their position in d and take the value from u, fresh
keys are appended in the order they appear in u. -/
def dictUpdate (d u : List (String × α)) : List (String × α) :=
  u.foldl (fun acc p => updOne acc p.1 p.2) d

/-- Embeds is_upper_str (src/locode.py lines 42 to 46): scan the characters,
return False at the first alphabetic character that is not upper case,
True otherwise.  The per character istitle test of Python coincides with the
upper case test on ASCII cased letters, and the Char classification used here
is the ASCII one. -/
def is_upper_str (s : String) : Bool :=
  s.data.all (fun c => !(c.isAlpha && !c.isUpper))

/-- UNKNOWN_REGION_CODE from the source (line 12). -/
def UNKNOWN_REGION_CODE : String := ".NONE"

/-- PARSER_HINT_TAG from the source (line 14). -/
def PARSER_HINT_TAG : String := "flags"

/-- One stderr warning emitted while a source document is checked and merged
by parse_yml_file. -/
inductive Warning where
  | noCountryData
  | invalidCountryCode (code : String)
  | mixedCaseCountryCode (code : String)
  | mixedCaseRegionCode (code : String)
  | mixedCaseCityCode (code : String)
deriving Repr, DecidableEq

/-- Warnings produced for the cities of one region entry
(src/locode.py lines 101 to 104). -/
def validate_cities (rentry : YNode) : List Warning :=
  match rentry with
  | .map rattrs =>
    match rattrs.lookup "city" with
    | some (.map cities) =>
      cities.filterMap (fun q =>
        if is_upper_str q.1 then none else some (.mixedCaseCityCode q.1))
    | _ => []
  | _ => []

/-- Warnings produced for the regions of one country entry
(src/locode.py lines 97 to 104).  A non mapping region table would raise in
Python; no claim involves such a document and the model treats it as having
no region entries. -/
def validate_regions (entry : YNode) : List Warning :=
  match entry with
  | .map attrs =>
    match attrs.lookup "region" with
    | some (.map regions) =>
      regions.flatMap (fun p =>
        (if is_upper_str p.1 then [] else [.mixedCaseRegionCode p.1]) ++
          validate_cities p.2)
    | _ => []
  | _ => []

/-- Warnings produced for one country entry of the source document
(src/locode.py lines 91 to 104).  A code whose length is not 2 is warned
about and the rest of the checks for that entry are skipped (the continue on
line 94). -/
def validate_src_country (code : String) (entry : YNode) : List Warning :=
  if code.length ≠ 2 then [.invalidCountryCode code]
  else
    (if is_upper_str code then [] else [.mixedCaseCountryCode code]) ++
      validate_regions entry

/-- The whole validation loop of parse_yml_file over the country table of the
source document (src/locode.py lines 91 to 104). -/
def validate_src_root (root : List (String × YNode)) : List Warning :=
  root.flatMap (fun p => validate_src_country p.1 p.2)

/-- Value of an optional country entry as an attribute table; a missing entry
stands for the fresh empty dict inserted by setdefault. -/
def attrsOf : Option YNode → List (String × YNode)
  | some (.map a) => a
  | _ => []

/-- One iteration of the filtered merge loop for a country code that passed
the filter (src/locode.py line 110):
dest_ctry_root.setdefault(ctry_code, dict()).update(src_ctry_root[ctry_code]).
The net effect on the destination table is updOne with the shallowly updated
attribute table.  A non mapping value on either side raises in Python
(AttributeError on update, or TypeError inside update); this is the error
case. -/
def merge_ctry_entry (destRoot : List (String × YNode)) (code : String)
    (srcEntry : YNode) : Except String (List (String × YNode)) :=
  match (match destRoot.lookup code with | some v => v | none => YNode.map []),
      srcEntry with
  | .map curAttrs, .map srcAttrs =>
    .ok (updOne destRoot code (.map (dictUpdate curAttrs srcAttrs)))
  | .map _, _ => .error "TypeError: update argument is not a mapping"
  | _, _ => .error "AttributeError: value has no update method"

/-- The filtered merge loop of parse_yml_file (src/locode.py lines 108 to
112): for each country code of the source, in order, merge it into the
destination country table when it is in the filter, silently skip it
otherwise. -/
def merge_filtered (destRoot : List (String × YNode)) :
    List (String × YNode) → List String → Except String (List (String × YNode))
  | [], _ => .ok destRoot
  | p :: ps, codes =>
    if p.1 ∈ codes then
      match merge_ctry_entry destRoot p.1 p.2 with
      | .ok r1 => merge_filtered r1 ps codes
      | .error e => .error e
    else merge_filtered destRoot ps codes

/-- Embeds parse_yml_file (src/locode.py lines 76 to 114) from the point
where the source document has been parsed (line 82).  Returns the stderr
warnings together with the new destination document, or the exception raised.
On an exception Python would leave a partially mutated destination behind;
the only exceptions reachable in the claims below are raised before any
mutation (the KeyError of line 107 in particular), so the error case carries
no document.

Branches, following the source line by line:
no top level country key: warn and return the destination unchanged (82-84);
a non mapping country value: items() raises before any warning (line 91);
an empty filter: a top level dict update of the destination with the whole
source document (line 114); a non empty filter: index the destination with
the country key (KeyError when absent, line 107) and run the filtered merge
loop, the result replacing the country value of the destination in place. -/
def parse_yml_file (yml_src yml_dest : Doc) (ctry_codes : List String) :
    List Warning × Except String Doc :=
  match yml_src.lookup "country" with
  | none => ([.noCountryData], .ok yml_dest)
  | some srcRootNode =>
    match srcRootNode with
    | .map srcRoot =>
      let warns := validate_src_root srcRoot
      if ctry_codes.isEmpty then
        (warns, .ok (dictUpdate yml_dest yml_src))
      else
        match yml_dest.lookup "country" with
        | none => (warns, .error "KeyError: country")
        | some destRootNode =>
          match destRootNode with
          | .map destRoot =>
            (warns, (merge_filtered destRoot srcRoot ctry_codes).map
              (fun newRoot => replaceVal yml_dest "country" (.map newRoot)))
          | _ =>
            if srcRoot.any (fun p => p.1 ∈ ctry_codes) then
              (warns, .error "AttributeError: value has no setdefault method")
            else (warns, .ok yml_dest)
    | _ => ([], .error "AttributeError: value has no items method")

/-- Observer: the entry of a given country code in a document. -/
def ctryEntry (d : Doc) (code : String) : Option YNode :=
  match d.lookup "country" with
  | some (.map root) => root.lookup code
  | _ => none

/-- Observer: one attribute of the entry of a given country code. -/
def ctryAttr (d : Doc) (code attr : String) : Option YNode :=
  match ctryEntry d code with
  | some (.map attrs) => attrs.lookup attr
  | _ => none

/-- Injection of a table whose values are all mappings into a country table;
used to state claims about well formed documents. -/
def mapDoc (r : List (String × List (String × YNode))) : List (String × YNode) :=
  r.map (fun p => (p.1, YNode.map p.2))

/-- The pre flight check of transact_copy for a single destination path
(src/locode.py line 57): the copy is allowed when the destination does not
exist, or is a regular file and is writable.  The stat of a path is modelled
as Option (isFile, writable), none meaning the path does not exist. -/
def destWritableCheck (info : Option (Bool × Bool)) : Bool :=
  match info with
  | none => true
  | some (isf, w) => isf && w

/-- The first loop of transact_copy (src/locode.py lines 52 to 60): walk the
listing of the source directory, skip entries that are not regular files,
check every destination path, and either collect the full list of pending
copies or raise at the first unwritable destination. -/
def collectFiles (src_dir dest_dir : String) (srcIsFile : String → Bool)
    (destStat : String → Option (Bool × Bool)) :
    List String → Except String (List (String × String))
  | [] => .ok []
  | name :: rest =>
    let src_file := src_dir ++ "/" ++ name
    if srcIsFile src_file then
      let dest_file := dest_dir ++ "/" ++ name
      if destWritableCheck (destStat dest_file) then
        (collectFiles src_dir dest_dir srcIsFile destStat rest).map
          (fun fs => (src_file, dest_file) :: fs)
      else .error ("Unable to write to file: " ++ dest_file)
    else collectFiles src_dir dest_dir srcIsFile destStat rest

/-- Embeds transact_copy (src/locode.py lines 49 to 73).  The filesystem is
modelled by the listing of the source directory and two oracles: whether a
source path is a regular file, and the stat of a destination path.  The
result is the ordered list of (source, destination) copies performed by the
second loop; since the second loop runs only after the first loop has checked
every destination, a raise in the first loop means no copy is performed,
which the error case models. -/
def transact_copy (src_dir dest_dir : String) (listing : List String)
    (srcIsFile : String → Bool) (destStat : String → Option (Bool × Bool)) :
    Except String (List (String × String)) :=
  collectFiles src_dir dest_dir srcIsFile destStat listing

/-- The copies actually performed by a run of transact_copy: none when the
pre flight check raised. -/
def copiesPerformed : Except String (List (String × String)) → List (String × String)
  | .ok l => l
  | .error _ => []

/-- The key lists of arrange_yml_nodes (src/locode.py lines 121 to 124):
nodes to appear at first place. -/
def headKeys : List String := ["name", "default", PARSER_HINT_TAG]

/-- Nodes to be placed at the end. -/
def tailKeys : List String := ["region", "city", UNKNOWN_REGION_CODE]

/-- Insert a key value pair into a list sorted by key.  Together with
sortPairs this embeds sorted(yml_node.items()) from line 130: Python sorts
the item tuples, and since the keys of a dict are distinct the order is the
lexicographic order of the keys. -/
def insertPair (p : String × YNode) : List (String × YNode) → List (String × YNode)
  | [] => [p]
  | q :: qs => if p.1 ≤ q.1 then p :: q :: qs else q :: insertPair p qs

/-- Sort an item list by key; sorted(yml_node.items()) on line 130. -/
def sortPairs : List (String × YNode) → List (String × YNode)
  | [] => []
  | p :: ps => insertPair p (sortPairs ps)

/-- A value looked up in an association list is smaller than the list;
justifies the recursion of arrange_yml_nodes into selected values. -/
theorem sizeOf_lookup_lt {xs : List (String × YNode)} {k : String} {v : YNode}
    (h : xs.lookup k = some v) : sizeOf v < sizeOf xs := by
  induction xs with
  | nil => simp at h
  | cons p ps ih =>
    obtain ⟨a, b⟩ := p
    rw [List.lookup_cons] at h
    split at h
    · cases h; simp; omega
    · have := ih h; simp; omega

theorem sizeOf_insertPair (p : String × YNode) (l : List (String × YNode)) :
    sizeOf (insertPair p l) = sizeOf (p :: l) := by
  induction l with
  | nil => rfl
  | cons q qs ih =>
    simp only [insertPair]
    split
    · rfl
    · simp [ih]; omega

theorem sizeOf_sortPairs (l : List (String × YNode)) :
    sizeOf (sortPairs l) = sizeOf l := by
  induction l with
  | nil => rfl
  | cons p ps ih => simp [sortPairs, sizeOf_insertPair, ih]

mutual
/-- Embeds arrange_yml_nodes (src/locode.py lines 117 to 137).  A node that
is not a plain dict, in particular an OrderedDict already produced by this
very function, is returned unchanged (the type test on line 118).  For a
plain dict the three loops of the source are the three helpers below, and
the result is an OrderedDict. -/
def arrange_yml_nodes : YNode → YNode
  | .map xs =>
    .omap (arrangeSelect headKeys xs ++ arrangeMid (sortPairs xs) ++
      arrangeSelect tailKeys xs)
  | n => n
termination_by n => (sizeOf n, 0)
decreasing_by
  all_goals simp_wf
  all_goals exact Prod.Lex.left _ _ (by try rw [sizeOf_sortPairs]
                                        omega)

/-- The first and third loop of arrange_yml_nodes (lines 127 to 129 and 133
to 135): walk a fixed key list and emit the arranged value of each key
present in the node. -/
def arrangeSelect : List String → List (String × YNode) → List (String × YNode)
  | [], _ => []
  | k :: ks, xs =>
    match h : xs.lookup k with
    | some v => (k, arrange_yml_nodes v) :: arrangeSelect ks xs
    | none => arrangeSelect ks xs
termination_by ks xs => (sizeOf xs, sizeOf ks)
decreasing_by
  all_goals simp_wf
  all_goals first
    | exact Prod.Lex.left _ _ (sizeOf_lookup_lt h)
    | exact Prod.Lex.right _ (by omega)

/-- The middle loop of arrange_yml_nodes (lines 130 to 132): walk the items
sorted by key and emit the arranged value of every key that is in neither
fixed key list. -/
def arrangeMid : List (String × YNode) → List (String × YNode)
  | [] => []
  | (k, v) :: ps =>
    if headKeys.contains k || tailKeys.contains k then arrangeMid ps
    else (k, arrange_yml_nodes v) :: arrangeMid ps
termination_by ps => (sizeOf ps, 0)
decreasing_by
  all_goals simp_wf
  all_goals exact Prod.Lex.left _ _ (by omega)
end

theorem replaceVal_cons (a : String) (b : α) (ps : List (String × α))
    (k : String) (v : α) :
    replaceVal ((a, b) :: ps) k v =
      (if (a == k) = true then (a, v) else (a, b)) :: replaceVal ps k v := rfl

theorem lookup_replaceVal_ne {d : List (String × α)} {j k : String} (v : α)
    (h : j ≠ k) : (replaceVal d k v).lookup j = d.lookup j := by
  induction d with
  | nil => rfl
  | cons p ps ih =>
    obtain ⟨a, b⟩ := p
    rw [replaceVal_cons]
    by_cases hak : a = k
    · subst hak
      rw [if_pos (beq_self_eq_true a), List.lookup_cons, List.lookup_cons]
      have h2 : (j == a) = false := beq_eq_false_iff_ne.mpr h
      rw [h2, ih]
    · rw [if_neg (by simp [hak]), List.lookup_cons, List.lookup_cons]
      cases hja : j == a
      · exact ih
      · rfl

theorem lookup_replaceVal_self {d : List (String × α)} {k : String} (v : α)
    (h : (d.lookup k).isSome) : (replaceVal d k v).lookup k = some v := by
  induction d with
  | nil => simp at h
  | cons p ps ih =>
    obtain ⟨a, b⟩ := p
    rw [replaceVal_cons]
    by_cases hak : a = k
    · subst hak
      rw [if_pos (beq_self_eq_true a), List.lookup_cons_self]
    · have h1 : (a == k) = false := by simp [hak]
      have h2 : (k == a) = false := by simp [Ne.symm hak]
      rw [if_neg (by simp [h1]), List.lookup_cons, h2]
      rw [List.lookup_cons, h2] at h
      exact ih h

theorem lookup_updOne_self (d : List (String × α)) (k : String) (v : α) :
    (updOne d k v).lookup k = some v := by
  unfold updOne
  split
  · exact lookup_replaceVal_self v (by assumption)
  · rename_i hnone
    rw [List.lookup_append]
    have hd : d.lookup k = none := by
      cases hd : d.lookup k
      · rfl
      · rw [hd] at hnone; simp at hnone
    simp [hd]

theorem lookup_updOne_ne {j k : String} (d : List (String × α)) (v : α)
    (h : j ≠ k) : (updOne d k v).lookup j = d.lookup j := by
  unfold updOne
  split
  · exact lookup_replaceVal_ne v h
  · rw [List.lookup_append]
    have h1 : ([(k, v)] : List (String × α)).lookup j = none := by
      rw [List.lookup_cons]
      have h2 : (j == k) = false := beq_eq_false_iff_ne.mpr h
      rw [h2]
      rfl
    rw [h1]
    cases d.lookup j <;> rfl

theorem dictUpdate_nil (d : List (String × α)) : dictUpdate d [] = d := rfl

theorem dictUpdate_cons (d : List (String × α)) (p : String × α)
    (u : List (String × α)) :
    dictUpdate d (p :: u) = dictUpdate (updOne d p.1 p.2) u := rfl

theorem lookup_dictUpdate_of_lookup_none {u : List (String × α)} {k : String}
    (d : List (String × α)) (h : u.lookup k = none) :
    (dictUpdate d u).lookup k = d.lookup k := by
  induction u generalizing d with
  | nil => rfl
  | cons p u ih =>
    obtain ⟨a, b⟩ := p
    rw [List.lookup_cons] at h
    rw [dictUpdate_cons]
    cases hka : k == a with
    | true => rw [hka] at h; simp at h
    | false =>
      rw [hka] at h
      rw [ih _ h, lookup_updOne_ne]
      simpa using hka

theorem lookup_dictUpdate_of_lookup_some {u : List (String × α)} {k : String}
    {v : α} (d : List (String × α)) (hnd : (u.map Prod.fst).Nodup)
    (h : u.lookup k = some v) : (dictUpdate d u).lookup k = some v := by
  induction u generalizing d with
  | nil => simp at h
  | cons p u ih =>
    obtain ⟨a, b⟩ := p
    rw [List.lookup_cons] at h
    rw [dictUpdate_cons]
    simp only [List.map_cons, List.nodup_cons] at hnd
    cases hka : k == a with
    | true =>
      rw [hka] at h
      cases h
      have hk : k = a := by simpa using hka
      subst hk
      have hnone : u.lookup k = none := by
        rw [List.lookup_eq_none_iff]
        intro q hq
        simp only [bne_iff_ne]
        intro hqk
        exact hnd.1 (hqk ▸ List.mem_map_of_mem Prod.fst hq)
      rw [lookup_dictUpdate_of_lookup_none _ hnone]
      exact lookup_updOne_self _ _ _
    | false =>
      rw [hka] at h
      exact ih _ hnd.2 h

theorem merge_ctry_entry_ok (destRoot : List (String × YNode)) (code : String)
    (srcAttrs : List (String × YNode))
    (hdst : ∀ v, destRoot.lookup code = some v → ∃ a, v = YNode.map a) :
    merge_ctry_entry destRoot code (.map srcAttrs) =
      .ok (updOne destRoot code
        (.map (dictUpdate (attrsOf (destRoot.lookup code)) srcAttrs))) := by
  unfold merge_ctry_entry
  cases hd : destRoot.lookup code with
  | none => simp [attrsOf]
  | some v =>
    obtain ⟨a, rfl⟩ := hdst v hd
    simp [attrsOf]

theorem merge_filtered_spec (srcRoot : List (String × YNode))
    (codes : List String) (R : List (String × YNode))
    (hnd : (srcRoot.map Prod.fst).Nodup)
    (hsrc : ∀ p ∈ srcRoot, p.1 ∈ codes → ∃ a, p.2 = YNode.map a)
    (hdst : ∀ p ∈ srcRoot, p.1 ∈ codes →
      ∀ v, R.lookup p.1 = some v → ∃ a, v = YNode.map a) :
    ∃ R1, merge_filtered R srcRoot codes = .ok R1 ∧
      (∀ c, c ∉ codes → R1.lookup c = R.lookup c) ∧
      (∀ c, c ∉ srcRoot.map Prod.fst → R1.lookup c = R.lookup c) ∧
      (∀ c sa, c ∈ codes → srcRoot.lookup c = some (YNode.map sa) →
        R1.lookup c = some (.map (dictUpdate (attrsOf (R.lookup c)) sa))) := by
  induction srcRoot generalizing R with
  | nil =>
    refine ⟨R, rfl, fun c _ => rfl, fun c _ => rfl, fun c sa _ h => by simp at h⟩
  | cons p ps ih =>
    obtain ⟨k0, v0⟩ := p
    simp only [List.map_cons, List.nodup_cons] at hnd
    by_cases hk : k0 ∈ codes
    · obtain ⟨sa0, rfl⟩ := hsrc (k0, v0) (List.mem_cons_self _ _) hk
      have hstep := merge_ctry_entry_ok R k0 sa0
        (fun v hv => hdst (k0, .map sa0) (List.mem_cons_self _ _) hk v hv)
      rw [show merge_filtered R ((k0, .map sa0) :: ps) codes =
        match merge_ctry_entry R k0 (.map sa0) with
        | .ok r1 => merge_filtered r1 ps codes
        | .error e => .error e
        from by rw [merge_filtered]; rw [if_pos hk]]
      rw [hstep]
      set newv : YNode := .map (dictUpdate (attrsOf (R.lookup k0)) sa0) with hnewv
      obtain ⟨R1, hR1, hframeC, hframeK, hupd⟩ :=
        ih (updOne R k0 newv) hnd.2
          (fun q hq hqc => hsrc q (List.mem_cons_of_mem _ hq) hqc)
          (fun q hq hqc v hv => by
            have hne : q.1 ≠ k0 := by
              intro he
              exact hnd.1 (he ▸ List.mem_map_of_mem Prod.fst hq)
            rw [lookup_updOne_ne _ _ hne] at hv
            exact hdst q (List.mem_cons_of_mem _ hq) hqc v hv)
      refine ⟨R1, hR1, ?_, ?_, ?_⟩
      · intro c hc
        have hne : c ≠ k0 := fun he => hc (he ▸ hk)
        rw [hframeC c hc, lookup_updOne_ne _ _ hne]
      · intro c hc
        simp only [List.map_cons, List.mem_cons, not_or] at hc
        rw [hframeK c hc.2, lookup_updOne_ne _ _ hc.1]
      · intro c sa hc hlk
        rw [List.lookup_cons] at hlk
        cases hck : c == k0 with
        | true =>
          rw [hck] at hlk
          cases hlk
          have hceq : c = k0 := by simpa using hck
          subst hceq
          have hnotin : c ∉ ps.map Prod.fst := hnd.1
          rw [hframeK c hnotin, lookup_updOne_self]
        | false =>
          rw [hck] at hlk
          have hne : c ≠ k0 := by simpa using hck
          rw [hupd c sa hc hlk, lookup_updOne_ne _ _ hne]
    · rw [show merge_filtered R ((k0, v0) :: ps) codes =
        merge_filtered R ps codes
        from by rw [merge_filtered]; rw [if_neg hk]]
      obtain ⟨R1, hR1, hframeC, hframeK, hupd⟩ :=
        ih R hnd.2
          (fun q hq hqc => hsrc q (List.mem_cons_of_mem _ hq) hqc)
          (fun q hq hqc v hv => hdst q (List.mem_cons_of_mem _ hq) hqc v hv)
      refine ⟨R1, hR1, hframeC, ?_, ?_⟩
      · intro c hc
        simp only [List.map_cons, List.mem_cons, not_or] at hc
        exact hframeK c hc.2
      · intro c sa hc hlk
        rw [List.lookup_cons] at hlk
        cases hck : c == k0 with
        | true =>
          have hceq : c = k0 := by simpa using hck
          exact absurd (hceq ▸ hc) hk
        | false =>
          rw [hck] at hlk
          exact hupd c sa hc hlk

theorem parse_yml_file_no_country (yml_src yml_dest : Doc)
    (ctry_codes : List String) (h : yml_src.lookup "country" = none) :
    parse_yml_file yml_src yml_dest ctry_codes = ([.noCountryData], .ok yml_dest) := by
  unfold parse_yml_file
  rw [h]

theorem parse_yml_file_empty_filter (yml_src yml_dest : Doc)
    (srcRoot : List (String × YNode))
    (h : yml_src.lookup "country" = some (.map srcRoot)) :
    parse_yml_file yml_src yml_dest [] =
      (validate_src_root srcRoot, .ok (dictUpdate yml_dest yml_src)) := by
  unfold parse_yml_file
  rw [h]
  rfl

theorem parse_yml_file_keyerror (yml_src yml_dest : Doc)
    (ctry_codes : List String) (srcRoot : List (String × YNode))
    (hc : ctry_codes ≠ [])
    (hs : yml_src.lookup "country" = some (.map srcRoot))
    (hd : yml_dest.lookup "country" = none) :
    parse_yml_file yml_src yml_dest ctry_codes =
      (validate_src_root srcRoot, .error "KeyError: country") := by
  unfold parse_yml_file
  rw [hs]
  have hne : ctry_codes.isEmpty = false := by
    cases ctry_codes
    · exact absurd rfl hc
    · rfl
  rw [hne]
  simp only [Bool.false_eq_true, if_false, hd]

theorem parse_yml_file_filtered (yml_src yml_dest : Doc)
    (ctry_codes : List String) (srcRoot destRoot : List (String × YNode))
    (hc : ctry_codes ≠ [])
    (hs : yml_src.lookup "country" = some (.map srcRoot))
    (hd : yml_dest.lookup "country" = some (.map destRoot)) :
    parse_yml_file yml_src yml_dest ctry_codes =
      (validate_src_root srcRoot,
        (merge_filtered destRoot srcRoot ctry_codes).map
          (fun newRoot => replaceVal yml_dest "country" (.map newRoot))) := by
  unfold parse_yml_file
  rw [hs]
  have hne : ctry_codes.isEmpty = false := by
    cases ctry_codes
    · exact absurd rfl hc
    · rfl
  rw [hne]
  simp only [Bool.false_eq_true, if_false, hd]

theorem arrange_map_eq (xs : List (String × YNode)) :
    arrange_yml_nodes (.map xs) =
      .omap (arrangeSelect headKeys xs ++ arrangeMid (sortPairs xs) ++
        arrangeSelect tailKeys xs) := by
  rw [arrange_yml_nodes]

theorem arrange_omap_eq (l : List (String × YNode)) :
    arrange_yml_nodes (.omap l) = .omap l := by
  simp [arrange_yml_nodes]

theorem arrangeSelect_keys (ks : List String) (xs : List (String × YNode)) :
    (arrangeSelect ks xs).map Prod.fst =
      ks.filter (fun k => (xs.lookup k).isSome) := by
  induction ks with
  | nil => simp [arrangeSelect]
  | cons k ks ih =>
    cases h : xs.lookup k with
    | some v =>
      rw [show arrangeSelect (k :: ks) xs =
        (k, arrange_yml_nodes v) :: arrangeSelect ks xs
        from by rw [arrangeSelect, h]]
      rw [List.filter_cons]
      have hc : ((xs.lookup k).isSome : Bool) = true := by rw [h]; rfl
      simp only [hc, if_true, List.map_cons, ih]
    | none =>
      rw [show arrangeSelect (k :: ks) xs = arrangeSelect ks xs
        from by rw [arrangeSelect, h]]
      rw [List.filter_cons]
      have hc : ((xs.lookup k).isSome : Bool) = false := by rw [h]; rfl
      simp only [hc, Bool.false_eq_true, if_false, ih]

theorem arrangeMid_keys (ps : List (String × YNode)) :
    (arrangeMid ps).map Prod.fst =
      (ps.map Prod.fst).filter
        (fun k => !(headKeys.contains k || tailKeys.contains k)) := by
  induction ps with
  | nil => simp [arrangeMid]
  | cons p ps ih =>
    obtain ⟨k, v⟩ := p
    cases hb : (headKeys.contains k || tailKeys.contains k) with
    | true =>
      rw [show arrangeMid ((k, v) :: ps) = arrangeMid ps
        from by rw [arrangeMid, if_pos hb]]
      simp only [List.map_cons, List.filter_cons]
      have hcond : (!(headKeys.contains k || tailKeys.contains k)) = false := by
        rw [hb]; rfl
      simp only [hcond, Bool.false_eq_true, if_false, ih]
    | false =>
      rw [show arrangeMid ((k, v) :: ps) =
        (k, arrange_yml_nodes v) :: arrangeMid ps
        from by rw [arrangeMid, if_neg (by rw [hb]; exact Bool.false_ne_true)]]
      simp only [List.map_cons, List.filter_cons]
      have hcond : (!(headKeys.contains k || tailKeys.contains k)) = true := by
        rw [hb]; rfl
      simp only [hcond, if_true, List.map_cons, ih]

theorem arrange_keys_eq (xs : List (String × YNode)) :
    nodeKeys (arrange_yml_nodes (.map xs)) =
      headKeys.filter (fun k => (xs.lookup k).isSome) ++
        ((sortPairs xs).map Prod.fst).filter
          (fun k => !(headKeys.contains k || tailKeys.contains k)) ++
        tailKeys.filter (fun k => (xs.lookup k).isSome) := by
  rw [arrange_map_eq]
  show (arrangeSelect headKeys xs ++ arrangeMid (sortPairs xs) ++
    arrangeSelect tailKeys xs).map Prod.fst = _
  rw [List.map_append, List.map_append, arrangeSelect_keys, arrangeSelect_keys,
    arrangeMid_keys]

theorem insertPair_perm (p : String × YNode) (l : List (String × YNode)) :
    List.Perm (insertPair p l) (p :: l) := by
  induction l with
  | nil => exact List.Perm.refl _
  | cons q qs ih =>
    rw [insertPair]
    split
    · exact List.Perm.refl _
    · exact (ih.cons q).trans (List.Perm.swap p q qs)

theorem sortPairs_perm (l : List (String × YNode)) :
    List.Perm (sortPairs l) l := by
  induction l with
  | nil => exact List.Perm.refl _
  | cons p ps ih => exact (insertPair_perm p (sortPairs ps)).trans (ih.cons p)

theorem pairwise_insertPair {p : String × YNode} {l : List (String × YNode)}
    (h : l.Pairwise (fun a b => a.1 ≤ b.1)) :
    (insertPair p l).Pairwise (fun a b => a.1 ≤ b.1) := by
  induction l with
  | nil => simp [insertPair]
  | cons q qs ih =>
    rw [insertPair]
    rw [List.pairwise_cons] at h
    split
    · rename_i hpq
      refine List.Pairwise.cons ?_ (List.Pairwise.cons h.1 h.2)
      intro b hb
      rcases List.mem_cons.mp hb with rfl | hb
      · exact hpq
      · exact le_trans hpq (h.1 b hb)
    · rename_i hpq
      refine List.Pairwise.cons ?_ (ih h.2)
      intro b hb
      have hb2 := (insertPair_perm p qs).mem_iff.mp hb
      rcases List.mem_cons.mp hb2 with rfl | hb3
      · exact le_of_not_le hpq
      · exact h.1 b hb3

theorem sortPairs_sorted (l : List (String × YNode)) :
    (sortPairs l).Pairwise (fun a b => a.1 ≤ b.1) := by
  induction l with
  | nil => exact List.Pairwise.nil
  | cons p ps ih => exact pairwise_insertPair ih

theorem contains_eq_true_iff {l : List String} {a : String} :
    l.contains a = true ↔ a ∈ l := by
  simp [List.elem_eq_mem]

theorem lookup_isSome_iff_mem {xs : List (String × α)} {k : String} :
    (xs.lookup k).isSome = true ↔ k ∈ xs.map Prod.fst := by
  rw [List.lookup_isSome_iff]
  simp only [List.mem_map, beq_iff_eq]
  constructor
  · rintro ⟨p, hp, rfl⟩
    exact ⟨p, hp, rfl⟩
  · rintro ⟨p, hp, rfl⟩
    exact ⟨p, hp, rfl⟩

theorem headKeys_nodup : headKeys.Nodup := by decide

theorem tailKeys_nodup : tailKeys.Nodup := by decide

theorem mem_tail_not_head {k : String} (h : k ∈ tailKeys) : k ∉ headKeys := by
  simp only [tailKeys, List.mem_cons, List.not_mem_nil, or_false] at h
  rcases h with rfl | rfl | rfl <;> decide

theorem arrange_keys_perm (xs : List (String × YNode))
    (hnd : (xs.map Prod.fst).Nodup) :
    List.Perm (nodeKeys (arrange_yml_nodes (.map xs))) (xs.map Prod.fst) := by
  rw [arrange_keys_eq]
  have hA : List.Perm (headKeys.filter (fun k => (xs.lookup k).isSome))
      ((xs.map Prod.fst).filter (fun k => headKeys.contains k)) := by
    rw [List.perm_ext_iff_of_nodup (headKeys_nodup.filter _) (hnd.filter _)]
    intro a
    simp only [List.mem_filter]
    constructor
    · rintro ⟨hmem, hsome⟩
      exact ⟨lookup_isSome_iff_mem.mp hsome, contains_eq_true_iff.mpr hmem⟩
    · rintro ⟨hK, hcont⟩
      exact ⟨contains_eq_true_iff.mp hcont, lookup_isSome_iff_mem.mpr hK⟩
  have hC : List.Perm (tailKeys.filter (fun k => (xs.lookup k).isSome))
      ((xs.map Prod.fst).filter (fun k => tailKeys.contains k)) := by
    rw [List.perm_ext_iff_of_nodup (tailKeys_nodup.filter _) (hnd.filter _)]
    intro a
    simp only [List.mem_filter]
    constructor
    · rintro ⟨hmem, hsome⟩
      exact ⟨lookup_isSome_iff_mem.mp hsome, contains_eq_true_iff.mpr hmem⟩
    · rintro ⟨hK, hcont⟩
      exact ⟨contains_eq_true_iff.mp hcont, lookup_isSome_iff_mem.mpr hK⟩
  have hM : List.Perm
      (((sortPairs xs).map Prod.fst).filter
        (fun k => !(headKeys.contains k || tailKeys.contains k)))
      ((xs.map Prod.fst).filter
        (fun k => !(headKeys.contains k || tailKeys.contains k))) :=
    ((sortPairs_perm xs).map Prod.fst).filter _
  -- decompose the key list by the head and tail predicates
  have hsplit1 : List.Perm
      ((xs.map Prod.fst).filter (fun k => headKeys.contains k) ++
        (xs.map Prod.fst).filter (fun k => !(headKeys.contains k)))
      (xs.map Prod.fst) := List.filter_append_perm _ _
  have hsplit2 : List.Perm
      (((xs.map Prod.fst).filter (fun k => !(headKeys.contains k))).filter
          (fun k => tailKeys.contains k) ++
        ((xs.map Prod.fst).filter (fun k => !(headKeys.contains k))).filter
          (fun k => !(tailKeys.contains k)))
      ((xs.map Prod.fst).filter (fun k => !(headKeys.contains k))) :=
    List.filter_append_perm _ _
  have he1 : ((xs.map Prod.fst).filter (fun k => !(headKeys.contains k))).filter
      (fun k => tailKeys.contains k) =
      (xs.map Prod.fst).filter (fun k => tailKeys.contains k) := by
    rw [List.filter_filter]
    refine List.filter_congr ?_
    intro a _
    cases ht : tailKeys.contains a
    · rfl
    · have : headKeys.contains a = false := by
        cases hh : headKeys.contains a
        · rfl
        · exact absurd (contains_eq_true_iff.mp hh)
            (mem_tail_not_head (contains_eq_true_iff.mp ht))
      rw [this]
      rfl
  have he2 : ((xs.map Prod.fst).filter (fun k => !(headKeys.contains k))).filter
      (fun k => !(tailKeys.contains k)) =
      (xs.map Prod.fst).filter
        (fun k => !(headKeys.contains k || tailKeys.contains k)) := by
    rw [List.filter_filter]
    refine List.filter_congr ?_
    intro a _
    cases ht : tailKeys.contains a <;> cases hh : headKeys.contains a <;> rfl
  rw [he1, he2] at hsplit2
  refine ((hA.append hM).append hC).trans ?_
  refine List.Perm.trans ?_ hsplit1
  rw [List.append_assoc]
  refine List.Perm.append_left _ ?_
  refine List.Perm.trans ?_ hsplit2
  exact List.perm_append_comm

theorem mapDoc_keys (r : List (String × List (String × YNode))) :
    (mapDoc r).map Prod.fst = r.map Prod.fst := by
  simp [mapDoc, List.map_map]

theorem mapDoc_lookup (r : List (String × List (String × YNode))) (k : String) :
    (mapDoc r).lookup k = (r.lookup k).map YNode.map := by
  induction r with
  | nil => rfl
  | cons p ps ih =>
    obtain ⟨a, b⟩ := p
    simp only [mapDoc, List.map_cons, List.lookup_cons]
    cases hka : k == a
    · exact ih
    · rfl

theorem collectFiles_ok (src_dir dest_dir : String) (srcIsFile : String → Bool)
    (destStat : String → Option (Bool × Bool)) (listing : List String)
    (h : listing.all (fun name => !srcIsFile (src_dir ++ "/" ++ name) ||
      destWritableCheck (destStat (dest_dir ++ "/" ++ name))) = true) :
    collectFiles src_dir dest_dir srcIsFile destStat listing =
      .ok (listing.filterMap (fun name =>
        if srcIsFile (src_dir ++ "/" ++ name) then
          some (src_dir ++ "/" ++ name, dest_dir ++ "/" ++ name)
        else none)) := by
  induction listing with
  | nil => rfl
  | cons name rest ih =>
    rw [List.all_cons, Bool.and_eq_true] at h
    rw [collectFiles, List.filterMap_cons]
    cases h1 : srcIsFile (src_dir ++ "/" ++ name) with
    | false => simp only [h1, Bool.false_eq_true, if_false]; exact ih h.2
    | true =>
      have h2 : destWritableCheck (destStat (dest_dir ++ "/" ++ name)) = true := by
        have := h.1
        rw [h1] at this
        simpa using this
      simp only [h1, if_true, h2, ih h.2, Except.map]
  
theorem collectFiles_error (src_dir dest_dir : String) (srcIsFile : String → Bool)
    (destStat : String → Option (Bool × Bool)) (listing : List String)
    (h : listing.all (fun name => !srcIsFile (src_dir ++ "/" ++ name) ||
      destWritableCheck (destStat (dest_dir ++ "/" ++ name))) = false) :
    ∃ msg, collectFiles src_dir dest_dir srcIsFile destStat listing =
      .error msg := by
  induction listing with
  | nil => simp at h
  | cons name rest ih =>
    rw [List.all_cons, Bool.and_eq_false_iff] at h
    rw [collectFiles]
    cases h1 : srcIsFile (src_dir ++ "/" ++ name) with
    | false =>
      simp only [h1, Bool.false_eq_true, if_false]
      refine ih ?_
      rcases h with h | h
      · rw [h1] at h; simp at h
      · exact h
    | true =>
      cases h2 : destWritableCheck (destStat (dest_dir ++ "/" ++ name)) with
      | false =>
        simp only [h1, if_true, h2, Bool.false_eq_true, if_false]
        exact ⟨_, rfl⟩
      | true =>
        simp only [h1, if_true, h2]
        have hrest : rest.all (fun name => !srcIsFile (src_dir ++ "/" ++ name) ||
            destWritableCheck (destStat (dest_dir ++ "/" ++ name))) = false := by
          rcases h with h | h
          · rw [h1, h2] at h
            simp at h
          · exact h
        obtain ⟨msg, hmsg⟩ := ih hrest
        exact ⟨msg, by rw [hmsg]; rfl⟩

/-- C3: for every mapping node, the key sequence of arrange_yml_nodes is the
present head keys name, default, flags in that order, then the remaining keys
not in the head or tail lists sorted lexicographically, then the present tail
keys region, city, .NONE in that order; on the concrete input of the claim
the key sequence is name, a, b, city. -/
theorem c3_arrange_key_order (xs : List (String × YNode)) :
    ∃ mid : List String,
      nodeKeys (arrange_yml_nodes (.map xs)) =
        headKeys.filter (fun k => (xs.lookup k).isSome) ++ mid ++
          tailKeys.filter (fun k => (xs.lookup k).isSome) ∧
      mid.Pairwise (fun a b => a ≤ b) ∧
      List.Perm mid ((xs.map Prod.fst).filter
        (fun k => !(headKeys.contains k || tailKeys.contains k))) ∧
      nodeKeys (arrange_yml_nodes (.map [("city", .map []), ("b", .int 1),
        ("a", .int 2), ("name", .str "X")])) = ["name", "a", "b", "city"] := by
  refine ⟨((sortPairs xs).map Prod.fst).filter
      (fun k => !(headKeys.contains k || tailKeys.contains k)),
    arrange_keys_eq xs, ?_, ?_, ?_⟩
  · exact ((sortPairs_sorted xs).map Prod.fst (fun a b hab => hab)).filter _
  · exact ((sortPairs_perm xs).map Prod.fst).filter _
  · rw [arrange_keys_eq]
    have e1 : sortPairs [("city", YNode.map []), ("b", YNode.int 1),
        ("a", YNode.int 2), ("name", YNode.str "X")] =
        [("a", YNode.int 2), ("b", YNode.int 1), ("city", YNode.map []),
          ("name", YNode.str "X")] := by
      have h1 : ("a" : String) ≤ "name" := by
        rw [String.le_iff_toList_le]; decide
      have h2 : ¬ (("b" : String) ≤ "a") := by
        rw [String.le_iff_toList_le]; decide
      have h3 : ("b" : String) ≤ "name" := by
        rw [String.le_iff_toList_le]; decide
      have h4 : ¬ (("city" : String) ≤ "a") := by
        rw [String.le_iff_toList_le]; decide
      have h5 : ¬ (("city" : String) ≤ "b") := by
        rw [String.le_iff_toList_le]; decide
      have h6 : ("city" : String) ≤ "name" := by
        rw [String.le_iff_toList_le]; decide
      simp [sortPairs, insertPair, h1, h2, h3, h4, h5, h6]
    rw [e1]
    decide

/-- C4: arrange_yml_nodes is idempotent on every mapping input: the first
application returns an OrderedDict, which the type test of line 118 passes
through unchanged on the second application. -/
theorem c4_arrange_idempotent (xs : List (String × YNode)) :
    arrange_yml_nodes (arrange_yml_nodes (.map xs)) =
      arrange_yml_nodes (.map xs) := by
  rw [arrange_map_eq, arrange_omap_eq]

/-- C5: for every mapping input with distinct keys, arrange_yml_nodes keeps
exactly the same key set: the output keys are a permutation of the input keys
and contain no duplicate. -/
theorem c5_arrange_key_set (xs : List (String × YNode))
    (hnd : (xs.map Prod.fst).Nodup) :
    List.Perm (nodeKeys (arrange_yml_nodes (.map xs))) (xs.map Prod.fst) ∧
      (nodeKeys (arrange_yml_nodes (.map xs))).Nodup :=
  ⟨arrange_keys_perm xs hnd, ((arrange_keys_perm xs hnd).nodup_iff).mpr hnd⟩

/-- Witness for C5 at the concrete input of the claim about key order. -/
theorem c5_arrange_key_set_witness :
    List.Perm (nodeKeys (arrange_yml_nodes (.map [("city", YNode.map []),
        ("b", YNode.int 1), ("a", YNode.int 2), ("name", YNode.str "X")])))
      ["city", "b", "a", "name"] ∧
      (nodeKeys (arrange_yml_nodes (.map [("city", YNode.map []),
        ("b", YNode.int 1), ("a", YNode.int 2), ("name", YNode.str "X")]))).Nodup :=
  c5_arrange_key_set _ (by decide)

/-- C7: when the parsed source document has no top level country key the
merge is a no op: the destination is returned unchanged, the only output is
the warning, and no exception is raised. -/
theorem c7_missing_country_noop (yml_src yml_dest : Doc)
    (ctry_codes : List String) (h : yml_src.lookup "country" = none) :
    parse_yml_file yml_src yml_dest ctry_codes =
      ([.noCountryData], .ok yml_dest) :=
  parse_yml_file_no_country yml_src yml_dest ctry_codes h

/-- Witness for C7: a document with no country key, a nonempty destination
and a nonempty filter. -/
theorem c7_missing_country_noop_witness :
    parse_yml_file [("x", YNode.int 0)] [("country", YNode.map [])] ["DE"] =
      ([.noCountryData], .ok [("country", YNode.map [])]) :=
  c7_missing_country_noop _ _ _ rfl

/-- C8: is_upper_str is true on every string whose alphabetic characters are
all upper case, false as soon as some character is a lower case letter, and
on the concrete inputs NO, No, .NONE of the claim it returns true, false and
true. -/
theorem c8_is_upper_str_spec (s t : String)
    (hs : ∀ c ∈ s.data, c.isAlpha = true → c.isUpper = true)
    (ht : ∃ c ∈ t.data, c.isLower = true) :
    is_upper_str s = true ∧ is_upper_str t = false ∧
      is_upper_str "NO" = true ∧ is_upper_str "No" = false ∧
      is_upper_str ".NONE" = true := by
  refine ⟨?_, ?_, by decide, by decide, by decide⟩
  · simp only [is_upper_str, List.all_eq_true]
    intro c hc
    cases ha : c.isAlpha
    · rfl
    · rw [hs c hc ha]
      rfl
  · obtain ⟨c, hc, hlow⟩ := ht
    have halpha : c.isAlpha = true := by
      rw [Char.isAlpha, hlow, Bool.or_true]
    have hup : c.isUpper = false := by
      cases hu : c.isUpper
      · rfl
      · exfalso
        rw [Char.isUpper, Bool.and_eq_true] at hu
        rw [Char.isLower, Bool.and_eq_true] at hlow
        have h90 : c.val ≤ 90 := by simpa using hu.2
        have h97 : 97 ≤ c.val := by simpa using hlow.1
        have h979 : (97 : UInt32) ≤ 90 := UInt32.le_trans h97 h90
        exact absurd h979 (by decide)
    cases hall : is_upper_str t
    · rfl
    · exfalso
      rw [is_upper_str, List.all_eq_true] at hall
      have := hall c hc
      rw [halpha, hup] at this
      simp at this

/-- Witness for C8: a fully upper case string and a string containing a lower
case letter. -/
theorem c8_is_upper_str_spec_witness :
    is_upper_str "AB" = true ∧ is_upper_str "No" = false ∧
      is_upper_str "NO" = true ∧ is_upper_str "No" = false ∧
      is_upper_str ".NONE" = true :=
  c8_is_upper_str_spec "AB" "No" (by decide) (by decide)

/-- C10: with a non empty filter, parse_yml_file indexes the destination with
the country key before the merge loop; when the destination has no country
entry this raises KeyError instead of merging, whatever the source country
table holds. -/
theorem c10_filter_keyerror (yml_src yml_dest : Doc) (ctry_codes : List String)
    (srcRoot : List (String × YNode)) (hc : ctry_codes ≠ [])
    (hs : yml_src.lookup "country" = some (.map srcRoot))
    (hd : yml_dest.lookup "country" = none) :
    (parse_yml_file yml_src yml_dest ctry_codes).2 =
      .error "KeyError: country" := by
  rw [parse_yml_file_keyerror yml_src yml_dest ctry_codes srcRoot hc hs hd]

/-- Witness for C10: filtering for FR with the empty document as the
destination. -/
theorem c10_filter_keyerror_witness :
    (parse_yml_file [("country", YNode.map [("FR", YNode.map [])])] []
        ["FR"]).2 = .error "KeyError: country" :=
  c10_filter_keyerror _ _ _ [("FR", YNode.map [])] (by decide) rfl rfl

/-- C1 counterexample: merging two sources for FR in sequence with an empty
filter does not keep the attribute of the earlier source.  Source one maps FR
to one attribute a, source two maps FR to one attribute b; after the two
merges the FR entry has no attribute a, because the empty filter branch
performs a top level dict update that replaces the whole country table. -/
theorem c1_counterexample :
    (parse_yml_file
        [("country", YNode.map [("FR", YNode.map [("a", YNode.int 1)])])]
        [] []).2 =
      .ok [("country", YNode.map [("FR", YNode.map [("a", YNode.int 1)])])] ∧
    (parse_yml_file
        [("country", YNode.map [("FR", YNode.map [("b", YNode.int 2)])])]
        [("country", YNode.map [("FR", YNode.map [("a", YNode.int 1)])])]
        []).2 =
      .ok [("country", YNode.map [("FR", YNode.map [("b", YNode.int 2)])])] ∧
    ctryAttr [("country", YNode.map [("FR", YNode.map [("b", YNode.int 2)])])]
      "FR" "a" = none ∧
    ctryAttr [("country", YNode.map [("FR", YNode.map [("b", YNode.int 2)])])]
      "FR" "b" = some (YNode.int 2) :=
  ⟨rfl, rfl, rfl, rfl⟩

/-- C1 amended: with an empty filter parse_yml_file performs a top level dict
update of the destination with the whole source document, so after merging
two sources in sequence the country table of the result is exactly the
country table of the later source; attribute keys present only in the
earlier source are not preserved.  The key by key union at the country entry
level happens only in the filtered branch. -/
theorem c1_amended_last_source_wins (dest src1 src2 : Doc)
    (r1 r2 : List (String × YNode))
    (h1 : src1.lookup "country" = some (.map r1))
    (h2 : src2.lookup "country" = some (.map r2))
    (hnd : (src2.map Prod.fst).Nodup) :
    (parse_yml_file src1 dest []).2 = .ok (dictUpdate dest src1) ∧
    (parse_yml_file src2 (dictUpdate dest src1) []).2 =
      .ok (dictUpdate (dictUpdate dest src1) src2) ∧
    (dictUpdate (dictUpdate dest src1) src2).lookup "country" =
      some (.map r2) := by
  refine ⟨?_, ?_, ?_⟩
  · rw [parse_yml_file_empty_filter src1 dest r1 h1]
  · rw [parse_yml_file_empty_filter src2 _ r2 h2]
  · exact lookup_dictUpdate_of_lookup_some _ hnd h2

/-- Witness for the amended C1 at the concrete two source FR example. -/
theorem c1_amended_last_source_wins_witness :
    (parse_yml_file
        [("country", YNode.map [("FR", YNode.map [("a", YNode.int 1)])])]
        [] []).2 =
      .ok (dictUpdate []
        [("country", YNode.map [("FR", YNode.map [("a", YNode.int 1)])])]) ∧
    (parse_yml_file
        [("country", YNode.map [("FR", YNode.map [("b", YNode.int 2)])])]
        (dictUpdate []
          [("country", YNode.map [("FR", YNode.map [("a", YNode.int 1)])])])
        []).2 =
      .ok (dictUpdate (dictUpdate []
          [("country", YNode.map [("FR", YNode.map [("a", YNode.int 1)])])])
        [("country", YNode.map [("FR", YNode.map [("b", YNode.int 2)])])]) ∧
    (dictUpdate (dictUpdate []
        [("country", YNode.map [("FR", YNode.map [("a", YNode.int 1)])])])
      [("country", YNode.map [("FR", YNode.map [("b", YNode.int 2)])])]).lookup
        "country" = some (.map [("FR", YNode.map [("b", YNode.int 2)])]) :=
  c1_amended_last_source_wins [] _ _
    [("FR", YNode.map [("a", YNode.int 1)])]
    [("FR", YNode.map [("b", YNode.int 2)])] rfl rfl (by decide)

/-- C2 counterexample: a country entry with the three character code USA is
warned about but still merged into the destination by the empty filter
branch, contradicting the claim that the entry is skipped by the merge. -/
theorem c2_counterexample :
    (parse_yml_file [("country", YNode.map [("USA", YNode.map [])])]
        [("country", YNode.map [])] []).1 = [.invalidCountryCode "USA"] ∧
    (parse_yml_file [("country", YNode.map [("USA", YNode.map [])])]
        [("country", YNode.map [])] []).2 =
      .ok [("country", YNode.map [("USA", YNode.map [])])] ∧
    ctryEntry [("country", YNode.map [("USA", YNode.map [])])] "USA" =
      some (YNode.map []) :=
  ⟨rfl, rfl, rfl⟩

/-- C2 amended: a country code whose length is not 2 draws the invalid code
warning and its remaining validation is skipped, and a length 2 code with
lower case letters draws the mixed case warning, but both entries are still
merged into the destination unchanged by the empty filter branch; the length
check never removes an entry from the merge. -/
theorem c2_amended_warn_but_merge (codeA codeB : String) (eA : YNode)
    (yml_dest : Doc) (hA : codeA.length ≠ 2) (hB : codeB.length = 2)
    (hBu : is_upper_str codeB = false) :
    parse_yml_file [("country", YNode.map [(codeA, eA), (codeB, YNode.map [])])]
        yml_dest [] =
      ([.invalidCountryCode codeA, .mixedCaseCountryCode codeB],
        .ok (dictUpdate yml_dest
          [("country", YNode.map [(codeA, eA), (codeB, YNode.map [])])])) := by
  rw [parse_yml_file_empty_filter
    [("country", YNode.map [(codeA, eA), (codeB, YNode.map [])])] yml_dest
    [(codeA, eA), (codeB, YNode.map [])] rfl]
  have hw : validate_src_root [(codeA, eA), (codeB, YNode.map [])] =
      [.invalidCountryCode codeA, .mixedCaseCountryCode codeB] := by
    simp [validate_src_root, validate_src_country, validate_regions, hA, hB,
      hBu]
  rw [hw]

/-- Witness for the amended C2: the codes USA and fr of the claim, merged
into the empty destination. -/
theorem c2_amended_warn_but_merge_witness :
    parse_yml_file
        [("country", YNode.map [("USA", YNode.map []), ("fr", YNode.map [])])]
        [] [] =
      ([.invalidCountryCode "USA", .mixedCaseCountryCode "fr"],
        .ok (dictUpdate []
          [("country",
            YNode.map [("USA", YNode.map []), ("fr", YNode.map [])])])) :=
  c2_amended_warn_but_merge "USA" "fr" (YNode.map []) [] (by decide)
    (by decide) (by decide)

/-- C6: with a non empty filter, merging updates in the destination country
table exactly the source country codes that pass the filter, by a shallow
key by key update of the corresponding entry, creating it when absent; every
other code keeps its previous entry, source codes outside the filter leave
no trace in the result, the rest of the destination document is untouched,
and the warnings are the same as for an unfiltered merge, so the dropping
itself is never warned about. -/
theorem c6_filtered_merge_frame (yml_src yml_dest : Doc) (codes : List String)
    (srcRoot destRoot : List (String × List (String × YNode)))
    (hc : codes ≠ [])
    (hs : yml_src.lookup "country" = some (.map (mapDoc srcRoot)))
    (hd : yml_dest.lookup "country" = some (.map (mapDoc destRoot)))
    (hnd : (srcRoot.map Prod.fst).Nodup) :
    ∃ newRoot : List (String × YNode),
      (parse_yml_file yml_src yml_dest codes).2 =
        .ok (replaceVal yml_dest "country" (.map newRoot)) ∧
      (∀ k, k ≠ "country" →
        (replaceVal yml_dest "country" (YNode.map newRoot)).lookup k =
          yml_dest.lookup k) ∧
      (∀ c, c ∉ codes → newRoot.lookup c = (mapDoc destRoot).lookup c) ∧
      (∀ c, c ∉ srcRoot.map Prod.fst →
        newRoot.lookup c = (mapDoc destRoot).lookup c) ∧
      (∀ c sa, c ∈ codes → (mapDoc srcRoot).lookup c = some (YNode.map sa) →
        newRoot.lookup c =
          some (.map (dictUpdate (attrsOf ((mapDoc destRoot).lookup c)) sa))) ∧
      (parse_yml_file yml_src yml_dest codes).1 =
        (parse_yml_file yml_src yml_dest []).1 := by
  obtain ⟨R1, hR1, hframeC, hframeK, hupd⟩ :=
    merge_filtered_spec (mapDoc srcRoot) codes (mapDoc destRoot)
      (by rw [mapDoc_keys]; exact hnd)
      (by
        intro p hp _
        simp only [mapDoc, List.mem_map] at hp
        obtain ⟨q, _, rfl⟩ := hp
        exact ⟨q.2, rfl⟩)
      (by
        intro p _ _ v hv
        rw [mapDoc_lookup] at hv
        cases hqq : destRoot.lookup p.1 with
        | none => rw [hqq] at hv; simp at hv
        | some a =>
          rw [hqq] at hv
          simp only [Option.map_some', Option.some.injEq] at hv
          exact ⟨a, hv.symm⟩)
  refine ⟨R1, ?_, ?_, ?_, ?_, ?_, ?_⟩
  · rw [parse_yml_file_filtered yml_src yml_dest codes (mapDoc srcRoot)
      (mapDoc destRoot) hc hs hd, hR1]
    rfl
  · intro k hk
    exact lookup_replaceVal_ne _ hk
  · intro c hcc
    exact hframeC c hcc
  · intro c hcc
    refine hframeK c ?_
    rw [mapDoc_keys]
    exact hcc
  · intro c sa hcc hlk
    exact hupd c sa hcc hlk
  · rw [parse_yml_file_filtered yml_src yml_dest codes (mapDoc srcRoot)
      (mapDoc destRoot) hc hs hd,
      parse_yml_file_empty_filter yml_src yml_dest (mapDoc srcRoot) hs]

/-- C9: the pre flight check of transact_copy runs over the whole listing
before any copy: the run fails with the unable to write error at the first
regular source file whose destination fails the check, and in that case the
list of performed copies is empty; when every destination passes, exactly
the regular source files of the listing are copied, in order. -/
theorem c9_transact_copy_preflight (src_dir dest_dir : String)
    (listing : List String) (srcIsFile : String → Bool)
    (destStat : String → Option (Bool × Bool)) :
    (transact_copy src_dir dest_dir listing srcIsFile destStat =
      match listing.find? (fun name => srcIsFile (src_dir ++ "/" ++ name) &&
          !destWritableCheck (destStat (dest_dir ++ "/" ++ name))) with
      | some bad =>
        .error ("Unable to write to file: " ++ (dest_dir ++ "/" ++ bad))
      | none =>
        .ok (listing.filterMap (fun name =>
          if srcIsFile (src_dir ++ "/" ++ name) then
            some (src_dir ++ "/" ++ name, dest_dir ++ "/" ++ name)
          else none))) ∧
    copiesPerformed (transact_copy src_dir dest_dir listing srcIsFile destStat) =
      (if listing.all (fun name => !srcIsFile (src_dir ++ "/" ++ name) ||
          destWritableCheck (destStat (dest_dir ++ "/" ++ name))) then
        listing.filterMap (fun name =>
          if srcIsFile (src_dir ++ "/" ++ name) then
            some (src_dir ++ "/" ++ name, dest_dir ++ "/" ++ name)
          else none)
      else []) := by
  constructor
  · show collectFiles src_dir dest_dir srcIsFile destStat listing = _
    induction listing with
    | nil => rfl
    | cons name rest ih =>
      rw [collectFiles, List.find?_cons, List.filterMap_cons]
      cases h1 : srcIsFile (src_dir ++ "/" ++ name) with
      | false =>
        simp only [h1, Bool.false_eq_true, if_false, Bool.false_and]
        exact ih
      | true =>
        cases h2 : destWritableCheck (destStat (dest_dir ++ "/" ++ name)) with
        | false =>
          simp only [h1, if_true, h2, Bool.not_false, Bool.true_and,
            Bool.false_eq_true, if_false]
        | true =>
          simp only [h1, if_true, h2, Bool.not_true, Bool.true_and, ih]
          cases hf : rest.find? (fun name =>
              srcIsFile (src_dir ++ "/" ++ name) &&
              !destWritableCheck (destStat (dest_dir ++ "/" ++ name))) <;>
            rfl
  · cases hall : listing.all (fun name => !srcIsFile (src_dir ++ "/" ++ name) ||
        destWritableCheck (destStat (dest_dir ++ "/" ++ name))) with
    | false =>
      obtain ⟨msg, hmsg⟩ := collectFiles_error src_dir dest_dir srcIsFile
        destStat listing hall
      rw [show transact_copy src_dir dest_dir listing srcIsFile destStat =
        collectFiles src_dir dest_dir srcIsFile destStat listing from rfl,
        hmsg]
      rfl
    | true =>
      rw [show transact_copy src_dir dest_dir listing srcIsFile destStat =
        collectFiles src_dir dest_dir srcIsFile destStat listing from rfl,
        collectFiles_ok src_dir dest_dir srcIsFile destStat listing hall]
      rfl

/-- Witness for C6: filter DE over a source with DE and FR and an empty
destination country table. -/
theorem c6_filtered_merge_frame_witness :
    ∃ newRoot : List (String × YNode),
      (parse_yml_file
        [("country", YNode.map
          (mapDoc [("DE", [("x", YNode.int 1)]), ("FR", [("y", YNode.int 2)])]))]
        [("country", YNode.map [])] ["DE"]).2 =
        .ok (replaceVal [("country", YNode.map [])] "country"
          (.map newRoot)) ∧
      (∀ k, k ≠ "country" →
        (replaceVal [("country", YNode.map [])] "country"
          (YNode.map newRoot)).lookup k =
          ([("country", YNode.map [])] : Doc).lookup k) ∧
      (∀ c, c ∉ (["DE"] : List String) →
        newRoot.lookup c = (mapDoc ([] : List (String × List (String × YNode)))).lookup c) ∧
      (∀ c, c ∉ ([("DE", [("x", YNode.int 1)]), ("FR", [("y", YNode.int 2)])] :
          List (String × List (String × YNode))).map Prod.fst →
        newRoot.lookup c = (mapDoc ([] : List (String × List (String × YNode)))).lookup c) ∧
      (∀ c sa, c ∈ (["DE"] : List String) →
        (mapDoc [("DE", [("x", YNode.int 1)]),
          ("FR", [("y", YNode.int 2)])]).lookup c = some (YNode.map sa) →
        newRoot.lookup c = some (.map (dictUpdate
          (attrsOf ((mapDoc ([] : List (String × List (String × YNode)))).lookup c)) sa))) ∧
      (parse_yml_file
        [("country", YNode.map
          (mapDoc [("DE", [("x", YNode.int 1)]), ("FR", [("y", YNode.int 2)])]))]
        [("country", YNode.map [])] ["DE"]).1 =
        (parse_yml_file
          [("country", YNode.map
            (mapDoc [("DE", [("x", YNode.int 1)]), ("FR", [("y", YNode.int 2)])]))]
          [("country", YNode.map [])] []).1 :=
  c6_filtered_merge_frame _ _ ["DE"]
    [("DE", [("x", YNode.int 1)]), ("FR", [("y", YNode.int 2)])] []
    (by decide) rfl rfl (by decide)
